import Mathlib

/-!
Verification of the planedb fixed-width database (src/planedb.c, src/planedb.h)
against its natural-language specification.

Modelling conventions (shallow embedding):
* C strings and the static line buffer `inbuf` are `List Char`; reading a byte
  at an index past the end of the list yields `NUL` (the static buffer has
  static storage duration, hence is zero-initialized, and reads in the program
  never go past index 1023).
* C `int` arithmetic in the field extractors is modelled as `Int` with 32-bit
  two's-complement wraparound (`wrap32`) applied at each accumulation step,
  matching the behavior of the compilers the program targets.
* Heap records are modelled by value; the `next`-pointer chains built by the
  loaders are modelled as Lean lists in file order.  Where a claim turns on
  the raw pointer structure (the loaders never NULL-terminate the final
  record's `next` field), a separate pointer-level model is used.
* `planedb_init` mallocs the `PlaneDb` context and initializes only the
  `types` and `planes` fields; the four cache fields `last_model`, `last_ti`,
  `last_icao`, `last_pi` keep whatever indeterminate bytes malloc returned.
  The model therefore takes those residues as an explicit `CacheGarbage`
  parameter; `gZero` is the most favorable instance (all bytes zero).
* Files are modelled as `Option (List (List Char))`: `none` means the file
  could not be opened, `some lines` is the sequence of strings returned by
  `fgets` (each at most 1023 characters, trailing newline included).
-/

set_option maxRecDepth 100000

/-- The NUL byte.  The static buffer `inbuf` is zero-initialized, and C
strings are NUL-terminated, so reads past the modelled data yield NUL. -/
def NUL : Char := '\x00'

/-- Read byte `i` of a modelled memory region (C `str[i]`). -/
def readC (s : List Char) (i : Nat) : Char := s.getD i NUL

/-- C `isspace` on the default locale: space, \t, \n, \v, \f, \r. -/
def isspaceC (c : Char) : Bool :=
  c = ' ' || c = '\t' || c = '\n' || c = '\x0b' || c = '\x0c' || c = '\r'

/-- Two's-complement wraparound of a C 32-bit `int` computation. -/
def wrap32 (x : Int) : Int := (x + 2 ^ 31) % 2 ^ 32 - 2 ^ 31

/-- Value of a hex digit character, per the three branches of `parse_hex`
(src/planedb.c lines 88-93): 0-9, a-f, A-F; `none` for any other byte. -/
def hexVal? (c : Char) : Option Int :=
  if 48 ≤ c.toNat ∧ c.toNat ≤ 57 then some ((c.toNat : Int) - 48)
  else if 97 ≤ c.toNat ∧ c.toNat ≤ 102 then some ((c.toNat : Int) - 97 + 10)
  else if 65 ≤ c.toNat ∧ c.toNat ≤ 70 then some ((c.toNat : Int) - 65 + 10)
  else none

/-- Value of a decimal digit character, per `parse_int`
(src/planedb.c line 113): 0-9 only. -/
def digitVal? (c : Char) : Option Int :=
  if 48 ≤ c.toNat ∧ c.toNat ≤ 57 then some ((c.toNat : Int) - 48) else none

/-- Loop of `parse_hex` (src/planedb.c lines 85-96): at most `fuel` further
iterations, current read position `pos`, accumulator `val`; a non-hex byte
stops the loop.  `(val << 4) + d` on a 32-bit int is `wrap32 (val * 16 + d)`. -/
def parse_hex_go (s : List Char) : Nat → Nat → Int → Int
  | _, 0, val => val
  | pos, fuel + 1, val =>
    match hexVal? (readC s pos) with
    | some d => parse_hex_go s (pos + 1) fuel (wrap32 (val * 16 + d))
    | none => val

/-- `parse_hex` (src/planedb.c lines 81-98): up to 8 hex digits starting at
`offset`, big-endian nibble accumulation. -/
def parse_hex (s : List Char) (offset : Nat) : Int := parse_hex_go s offset 8 0

/-- Loop of `parse_int` (src/planedb.c lines 110-117). -/
def parse_int_go (s : List Char) : Nat → Nat → Int → Int
  | _, 0, val => val
  | pos, fuel + 1, val =>
    match digitVal? (readC s pos) with
    | some d => parse_int_go s (pos + 1) fuel (wrap32 (val * 10 + d))
    | none => val

/-- `parse_int` (src/planedb.c lines 106-119): up to 10 decimal digits
starting at `offset`. -/
def parse_int (s : List Char) (offset : Nat) : Int := parse_int_go s offset 10 0

/-- Backward scan of `pickup` (src/planedb.c lines 133-140): starting from
index `p0 + k - 1` move left while the byte is whitespace and the index is
still ≥ `p0`; returns the final value of the C variable `last` (which is
`p0 - 1` when the whole span is whitespace). -/
def lastScan (s : List Char) (p0 : Nat) : Nat → Int
  | 0 => (p0 : Int) - 1
  | k + 1 => if isspaceC (readC s (p0 + k)) then lastScan s p0 k else ((p0 + k : Nat) : Int)

/-- `pickup` (src/planedb.c lines 131-145): trim trailing whitespace by the
backward scan, then `strndup(&str[p0], last - p0 + 1)`.  `strndup` copies at
most `n` bytes but stops at the first NUL, hence the `takeWhile`.  Modelled
for `p0 ≤ p1`, which holds at every call site ((8,38), (39,59), (0,5),
(58,107)); for `p1 < p0` the C code converts a negative length to a huge
`size_t` and copies up to the NUL terminator, a path never exercised. -/
def pickup (s : List Char) (p0 p1 : Nat) : List Char :=
  ((s.drop p0).take (lastScan s p0 (p1 - p0) - (p0 : Int) + 1).toNat).takeWhile
    (fun c => c ≠ NUL)

/-- Overwrite the front of the static buffer with a line just read by
`fgets(inbuf, 1024, f)`: the line's bytes (at most 1023), a NUL terminator,
and the previous contents beyond that are untouched. -/
def bufWrite (buf line : List Char) : List Char :=
  line.take 1023 ++ [NUL] ++ buf.drop ((line.take 1023).length + 1)

/-- TypeInfo record (src/planedb.h lines 45-54); the `next` link is
represented by list structure, strings by value. -/
structure TypeInfo where
  id : Int
  manufacturer : List Char
  model : List Char
  type : Int
  nrseats : Int
deriving DecidableEq, Repr

/-- PlaneInfo record (src/planedb.h lines 59-67). -/
structure PlaneInfo where
  id : Int
  nnum : List Char
  model : Int
  registrant : List Char
deriving DecidableEq, Repr

/-- The PlaneDb context (src/planedb.h lines 73-81). -/
structure PlaneDb where
  types : List TypeInfo
  last_model : Int
  last_ti : Option TypeInfo
  planes : List PlaneInfo
  last_icao : Int
  last_pi : Option PlaneInfo
deriving DecidableEq, Repr

/-- The indeterminate malloc residue left in the four cache fields, which
`planedb_init` (src/planedb.c lines 415-419) never writes. -/
structure CacheGarbage where
  gModel : Int
  gTi : Option TypeInfo
  gIcao : Int
  gPi : Option PlaneInfo
deriving DecidableEq, Repr

/-- The most favorable malloc residue: all bytes zero (so the cache fields
read as 0 / NULL). -/
def gZero : CacheGarbage := ⟨0, none, 0, none⟩

/-- The fixed 10-entry category description table `typeTable`
(src/planedb.c lines 155-166). -/
def typeTable : List String :=
  ["None", "Glider", "Balloon", "Blimp/Dirigible", "Fixed wing single engine",
   "Fixed wing multi engine", "Rotorcraft", "Weight-shift-control",
   "Powered Parachute", "Gyroplane"]

/-- Field extraction for one accepted type line (src/planedb.c lines
273-281), reading from the static buffer. -/
def mkTypeInfo (buf : List Char) : TypeInfo :=
  { id := parse_int buf 0
    manufacturer := pickup buf 8 38
    model := pickup buf 39 59
    type := parse_int buf 60
    nrseats := parse_int buf 72 }

/-- Field extraction for one accepted registration line (src/planedb.c
lines 381-386). -/
def mkPlaneInfo (buf : List Char) : PlaneInfo :=
  { id := parse_hex buf 601
    nnum := pickup buf 0 5
    model := parse_int buf 37
    registrant := pickup buf 58 107 }

/-- Line loop of `load_types` (src/planedb.c lines 259-287): every line read
by `fgets` overwrites the shared buffer, lines shorter than 68 bytes are then
skipped, and each accepted line appends one record built from the buffer.
Returns the records in file order together with the final buffer state. -/
def load_types_go (buf : List Char) : List (List Char) → List TypeInfo × List Char
  | [] => ([], buf)
  | line :: rest =>
    let buf2 := bufWrite buf line
    if line.length < 68 then load_types_go buf2 rest
    else
      let r := load_types_go buf2 rest
      (mkTypeInfo buf2 :: r.1, r.2)

/-- Line loop of `load_planes` (src/planedb.c lines 367-394): minimum line
length 610. -/
def load_planes_go (buf : List Char) : List (List Char) → List PlaneInfo × List Char
  | [] => ([], buf)
  | line :: rest =>
    let buf2 := bufWrite buf line
    if line.length < 610 then load_planes_go buf2 rest
    else
      let r := load_planes_go buf2 rest
      (mkPlaneInfo buf2 :: r.1, r.2)

/-- `planedb_init` (src/planedb.c lines 413-431): allocate the context, load
the type index first (`ACFTREF.txt`), then the registration index
(`MASTER.txt`), each from a zero-initialized-then-reused static buffer; if
either file cannot be opened the partially built context is closed and NULL
is returned.  The cache fields keep the malloc residue `g`. -/
def planedb_init (g : CacheGarbage) (tf pf : Option (List (List Char))) : Option PlaneDb :=
  match tf, pf with
  | none, _ => none
  | some _, none => none
  | some tlines, some plines =>
    some { types := (load_types_go [] tlines).1
           last_model := g.gModel
           last_ti := g.gTi
           planes := (load_planes_go (load_types_go [] tlines).2 plines).1
           last_icao := g.gIcao
           last_pi := g.gPi }

/-- The while loop of `type_lookup` (src/planedb.c lines 230-239): linear
scan returning the first record whose id matches. -/
def type_scan : List TypeInfo → Int → Option TypeInfo
  | [], _ => none
  | r :: rest, id => if r.id = id then some r else type_scan rest id

/-- The while loop of `planedb_lookup` (src/planedb.c lines 450-459). -/
def plane_scan : List PlaneInfo → Int → Option PlaneInfo
  | [], _ => none
  | r :: rest, id => if r.id = id then some r else plane_scan rest id

/-- `type_lookup` (src/planedb.c lines 225-241): if the key equals
`last_model` return `last_ti` without scanning; otherwise scan, and on a hit
update the cache.  Returns the updated context and the result. -/
def type_lookup (db : PlaneDb) (id : Int) : PlaneDb × Option TypeInfo :=
  if id = db.last_model then (db, db.last_ti)
  else
    match type_scan db.types id with
    | some r => ({ db with last_model := id, last_ti := some r }, some r)
    | none => (db, none)

/-- `planedb_lookup` (src/planedb.c lines 442-461): parse the ICAO hex
string, consult the `last_icao`/`last_pi` cache, otherwise scan. -/
def planedb_lookup (db : PlaneDb) (icao : List Char) : PlaneDb × Option PlaneInfo :=
  let id := parse_hex icao 0
  if id = db.last_icao then (db, db.last_pi)
  else
    match plane_scan db.planes id with
    | some r => ({ db with last_icao := id, last_pi := some r }, some r)
    | none => (db, none)

/-- Value-level `planedb_close` (src/planedb.c lines 468-488): a NULL
context returns FALSE immediately and frees nothing; otherwise the two
record chains are freed in list order, then the context.  The result records
the return value and exactly which records were released. -/
def planedb_close : Option PlaneDb → Bool × List TypeInfo × List PlaneInfo
  | none => (false, [], [])
  | some db => (true, db.types, db.planes)

/-- Mathematical base-16 value of the `k` hex digits starting at `pos`
(big-endian), the reference value the spec compares `parse_hex` against. -/
def hexPrefixVal (s : List Char) : Nat → Nat → Int
  | _, 0 => 0
  | pos, k + 1 => (hexVal? (readC s pos)).getD 0 * 16 ^ k + hexPrefixVal s (pos + 1) k

/-- The trimmed-substring contract as the spec words it: the span
[p0, p1) of the string with its trailing whitespace removed. -/
def pickup_spec (s : List Char) (p0 p1 : Nat) : List Char :=
  (((s.drop p0).take (p1 - p0)).reverse.dropWhile isspaceC).reverse

theorem wrap32_eq_self {x : Int} (h0 : 0 ≤ x) (h1 : x < 2 ^ 31) : wrap32 x = x := by
  unfold wrap32
  omega

theorem hexPrefixVal_succ (s : List Char) (pos k : Nat) :
    hexPrefixVal s pos (k + 1)
      = (hexVal? (readC s pos)).getD 0 * 16 ^ k + hexPrefixVal s (pos + 1) k := rfl

theorem hexVal?_bounds {c : Char} {d : Int} (h : hexVal? c = some d) : 0 ≤ d ∧ d ≤ 15 := by
  unfold hexVal? at h
  split at h
  case isTrue h1 => injection h with h; omega
  case isFalse =>
    split at h
    case isTrue h1 => injection h with h; omega
    case isFalse =>
      split at h
      case isTrue h1 => injection h with h; omega
      case isFalse => exact absurd h (by simp)

theorem digitVal?_bounds {c : Char} {d : Int} (h : digitVal? c = some d) : 0 ≤ d ∧ d ≤ 9 := by
  unfold digitVal? at h
  split at h
  case isTrue h1 => injection h with h; omega
  case isFalse => exact absurd h (by simp)

theorem hexPrefixVal_nonneg (s : List Char) : ∀ (k pos : Nat), 0 ≤ hexPrefixVal s pos k
  | 0, _ => le_refl 0
  | k + 1, pos => by
    have h1 : 0 ≤ (hexVal? (readC s pos)).getD 0 := by
      cases h : hexVal? (readC s pos) with
      | none => simp
      | some d => simpa using (hexVal?_bounds h).1
    have h2 := hexPrefixVal_nonneg s k (pos + 1)
    have h3 : (0 : Int) < 16 ^ k := by positivity
    unfold hexPrefixVal
    nlinarith

theorem parse_hex_go_spec :
    ∀ (k fuel : Nat) (s : List Char) (pos : Nat) (val : Int),
      k ≤ fuel →
      (∀ i, i < k → (hexVal? (readC s (pos + i))).isSome) →
      (k < fuel → hexVal? (readC s (pos + k)) = none) →
      0 ≤ val →
      val * 16 ^ k + hexPrefixVal s pos k < 2 ^ 31 →
      parse_hex_go s pos fuel val = val * 16 ^ k + hexPrefixVal s pos k := by
  intro k
  induction k with
  | zero =>
    intro fuel s pos val _ _ hstop hval _
    cases fuel with
    | zero => simp [parse_hex_go, hexPrefixVal]
    | succ f =>
      have h0 : hexVal? (readC s (pos + 0)) = none := hstop (Nat.succ_pos f)
      rw [Nat.add_zero] at h0
      simp [parse_hex_go, h0, hexPrefixVal]
  | succ k ih =>
    intro fuel s pos val hkf hdig hstop hval hbound
    cases fuel with
    | zero => omega
    | succ f =>
      have hd0 : (hexVal? (readC s (pos + 0))).isSome := hdig 0 (Nat.succ_pos k)
      rw [Nat.add_zero] at hd0
      obtain ⟨d, hd⟩ := Option.isSome_iff_exists.mp hd0
      have hdb := hexVal?_bounds hd
      have hdec : hexPrefixVal s pos (k + 1)
          = d * 16 ^ k + hexPrefixVal s (pos + 1) k := by
        rw [hexPrefixVal_succ, hd, Option.getD_some]
      have hnn : 0 ≤ hexPrefixVal s (pos + 1) k := hexPrefixVal_nonneg s k (pos + 1)
      have hval2 : 0 ≤ val * 16 + d := by nlinarith
      have h16k : (1 : Int) ≤ 16 ^ k := by
        have hp : (0 : Int) < 16 ^ k := by positivity
        omega
      have hbound2 : (val * 16 + d) * 16 ^ k + hexPrefixVal s (pos + 1) k < 2 ^ 31 := by
        have : val * 16 ^ (k + 1) + hexPrefixVal s pos (k + 1)
            = (val * 16 + d) * 16 ^ k + hexPrefixVal s (pos + 1) k := by
          rw [hdec]; ring
        omega
      have hlt : val * 16 + d < 2 ^ 31 := by nlinarith
      have hw : wrap32 (val * 16 + d) = val * 16 + d := wrap32_eq_self hval2 hlt
      have step : parse_hex_go s pos (f + 1) val
          = parse_hex_go s (pos + 1) f (wrap32 (val * 16 + d)) := by
        simp only [parse_hex_go, hd]
      rw [step, hw]
      rw [ih f s (pos + 1) (val * 16 + d) (by omega)
        (fun i hi => by
          have := hdig (i + 1) (by omega)
          rwa [show pos + (i + 1) = pos + 1 + i by omega] at this)
        (fun hkf2 => by
          have := hstop (by omega)
          rwa [show pos + (k + 1) = pos + 1 + k by omega] at this)
        hval2 hbound2]
      rw [hdec]; ring

theorem parse_hex_go_congr :
    ∀ (fuel : Nat) (s t : List Char) (pos : Nat) (val : Int),
      (∀ i, i < fuel → readC s (pos + i) = readC t (pos + i)) →
      parse_hex_go s pos fuel val = parse_hex_go t pos fuel val := by
  intro fuel
  induction fuel with
  | zero => intro s t pos val _; rfl
  | succ f ih =>
    intro s t pos val h
    have h0 : readC s (pos + 0) = readC t (pos + 0) := h 0 (Nat.succ_pos f)
    rw [Nat.add_zero] at h0
    unfold parse_hex_go
    rw [h0]
    cases hexVal? (readC t pos) with
    | none => rfl
    | some d =>
      exact ih s t (pos + 1) (wrap32 (val * 16 + d)) (fun i hi => by
        have := h (i + 1) (by omega)
        rwa [show pos + (i + 1) = pos + 1 + i by omega] at this)

/-- C3 (amended): the hex extractor reads at most 8 characters starting at
the offset (its result depends only on those bytes), consumes contiguous hex
digits big-endian and stops at the first non-hex character; for every string
whose prefix at the offset is 1 to 8 hex digits, whenever the base-16 value
of that digit prefix is representable in a 32-bit signed int (below 2^31)
the result equals that value, trailing non-hex characters ignored; and the
result is 0 when no hex digit is present at the offset.  (The claim as
frozen omits the representability bound; see the counterexample.) -/
theorem c3_parse_hex_correct :
    (∀ (s : List Char) (off k : Nat),
        1 ≤ k → k ≤ 8 →
        (∀ i, i < k → (hexVal? (readC s (off + i))).isSome) →
        (k < 8 → hexVal? (readC s (off + k)) = none) →
        hexPrefixVal s off k < 2 ^ 31 →
        parse_hex s off = hexPrefixVal s off k) ∧
    (∀ (s : List Char) (off : Nat),
        hexVal? (readC s off) = none → parse_hex s off = 0) ∧
    (∀ (s t : List Char) (off : Nat),
        (∀ i, i < 8 → readC s (off + i) = readC t (off + i)) →
        parse_hex s off = parse_hex t off) := by
  refine ⟨?_, ?_, ?_⟩
  · intro s off k _ hk8 hdig hstop hrep
    have h := parse_hex_go_spec k 8 s off 0 hk8 hdig hstop (le_refl 0)
      (by simpa using hrep)
    simpa [parse_hex] using h
  · intro s off h
    have h0 := parse_hex_go_spec 0 8 s off 0 (by omega)
      (fun i hi => absurd hi (Nat.not_lt_zero i))
      (fun _ => by simpa using h) (le_refl 0)
      (by simp [hexPrefixVal])
    simpa [parse_hex, hexPrefixVal] using h0
  · intro s t off h
    exact parse_hex_go_congr 8 s t off 0 h

/-- C3 counterexample: the 8-hex-digit string FFFFFFFF has base-16 value
4294967295, but the 32-bit int accumulator of `parse_hex` wraps and the
function returns -1, so the frozen claim's unconditional equality with the
base-16 value fails. -/
theorem c3_overflow_counterexample :
    parse_hex (List.replicate 8 'F') 0 = -1 ∧
    hexPrefixVal (List.replicate 8 'F') 0 8 = 4294967295 ∧
    parse_hex (List.replicate 8 'F') 0 ≠ hexPrefixVal (List.replicate 8 'F') 0 8 := by
  refine ⟨by decide, by decide, by decide⟩

/-- C3 witness: the spec's own example, parse_hex "1A2B,junk" = 0x1A2B. -/
theorem c3_witness : parse_hex "1A2B,junk".toList 0 = 6699 := by
  have h := c3_parse_hex_correct.1 "1A2B,junk".toList 0 4 (by decide) (by decide)
    (by decide) (by decide) (by decide)
  rw [h]
  decide

theorem reverse_dropWhile_eq_take {α : Type} (q : α → Bool) (l : List α) :
    (l.reverse.dropWhile q).reverse = l.take (l.reverse.dropWhile q).length := by
  induction l using List.reverseRecOn with
  | nil => rfl
  | append_singleton xs x ih =>
    rw [List.reverse_append, List.reverse_singleton, List.singleton_append]
    by_cases h : q x
    · rw [List.dropWhile_cons_of_pos h]
      have hlen : (xs.reverse.dropWhile q).length ≤ xs.length := by
        have := (List.dropWhile_sublist (l := xs.reverse) q).length_le
        simpa using this
      rw [List.take_append_of_le_length hlen]
      exact ih
    · rw [List.dropWhile_cons_of_neg h]
      rw [List.reverse_cons, List.reverse_reverse]
      rw [List.length_cons, List.length_reverse]
      rw [List.take_of_length_le (by simp)]

theorem lastScan_length (s : List Char) (p0 : Nat) :
    ∀ k : Nat, p0 + k ≤ s.length →
      (lastScan s p0 k - (p0 : Int) + 1).toNat
        = (((s.drop p0).take k).reverse.dropWhile isspaceC).length := by
  intro k
  induction k with
  | zero => intro _; simp [lastScan]
  | succ k ih =>
    intro hlen
    have hk : p0 + k < s.length := by omega
    have hget : (s.drop p0)[k]? = some (readC s (p0 + k)) := by
      rw [List.getElem?_drop]
      unfold readC
      rw [List.getD_eq_getElem?_getD]
      cases hx : s[p0 + k]? with
      | none => exact absurd (List.getElem?_eq_none_iff.mp hx) (by omega)
      | some c => simp
    have hsplit : (s.drop p0).take (k + 1)
        = (s.drop p0).take k ++ [readC s (p0 + k)] := by
      rw [List.take_succ, hget]
      rfl
    rw [hsplit, List.reverse_append, List.reverse_singleton, List.singleton_append]
    unfold lastScan
    by_cases h : isspaceC (readC s (p0 + k))
    · rw [if_pos h, List.dropWhile_cons_of_pos h]
      exact ih (by omega)
    · rw [if_neg h, List.dropWhile_cons_of_neg h]
      rw [List.length_cons, List.length_reverse, List.length_take, List.length_drop]
      push_cast
      omega

/-- C8: for every string and byte positions p0 ≤ p1 ≤ length (the spans the
program uses; C would read out of bounds otherwise) on a NUL-free string,
`pickup` returns the characters of the span [p0, p1) with trailing
whitespace removed and leading whitespace preserved; an all-whitespace span
gives the empty string. -/
theorem c8_pickup_trims_trailing :
    ∀ (s : List Char) (p0 p1 : Nat),
      p0 ≤ p1 → p1 ≤ s.length → (∀ c ∈ s, c ≠ NUL) →
      pickup s p0 p1 = pickup_spec s p0 p1 := by
  intro s p0 p1 hp hlen hnul
  unfold pickup pickup_spec
  have hk : p0 + (p1 - p0) ≤ s.length := by omega
  rw [lastScan_length s p0 (p1 - p0) hk]
  set q := isspaceC
  set span := (s.drop p0).take (p1 - p0) with hspan
  set L := (span.reverse.dropWhile q).length with hL
  have hLle : L ≤ p1 - p0 := by
    have h1 : (span.reverse.dropWhile q).length ≤ span.reverse.length :=
      (List.dropWhile_sublist (l := span.reverse) q).length_le
    have h2 : span.length ≤ p1 - p0 := by
      rw [hspan, List.length_take]
      omega
    rw [List.length_reverse] at h1
    omega
  have htake : (s.drop p0).take L = span.take L := by
    rw [hspan, List.take_take]
    congr 1
    omega
  rw [htake]
  rw [show span.take L = (span.reverse.dropWhile q).reverse from
    (reverse_dropWhile_eq_take q span).symm]
  rw [List.takeWhile_eq_self_iff.mpr]
  intro c hc
  have h1 : c ∈ span.reverse.dropWhile q := List.mem_reverse.mp hc
  have h2 : c ∈ span.reverse := List.Sublist.mem h1 (List.dropWhile_sublist q)
  have h3 : c ∈ span := List.mem_reverse.mp h2
  have h4 : c ∈ s.drop p0 := List.Sublist.mem h3 (List.take_sublist _ _)
  have h5 : c ∈ s := List.Sublist.mem h4 (List.drop_sublist _ _)
  exact decide_eq_true (hnul c h5)

/-- C8 witness: the spec's two examples, obtained from the theorem at
concrete inputs: pickup "  ABC   " 0 8 = "  ABC" (trailing spaces removed,
leading preserved) and pickup "    " 0 4 = "". -/
theorem c8_pickup_witness :
    pickup "  ABC   ".toList 0 8 = pickup_spec "  ABC   ".toList 0 8 ∧
    pickup "  ABC   ".toList 0 8 = "  ABC".toList ∧
    pickup "    ".toList 0 4 = pickup_spec "    ".toList 0 4 ∧
    pickup "    ".toList 0 4 = [] :=
  ⟨c8_pickup_trims_trailing "  ABC   ".toList 0 8 (by decide) (by decide) (by decide),
   by decide,
   c8_pickup_trims_trailing "    ".toList 0 4 (by decide) (by decide) (by decide),
   by decide⟩

/-- A 3-line type file whose middle line is truncated below 68 bytes. -/
def c4lines : List (List Char) :=
  [List.replicate 68 'A', List.replicate 10 'B', List.replicate 70 'C']

/-- C4: each loader skips every line shorter than its minimum width (68
bytes for type records, 610 for registration records) and produces exactly
one record per line at least that long, so the record count equals the
number of sufficiently long lines; in particular the 3-line type file
`c4lines` with one truncated line yields exactly 2 records. -/
theorem c4_min_line_width :
    (∀ (buf : List Char) (lines : List (List Char)),
        (load_types_go buf lines).1.length
          = (lines.filter (fun l => decide (68 ≤ l.length))).length) ∧
    (∀ (buf : List Char) (lines : List (List Char)),
        (load_planes_go buf lines).1.length
          = (lines.filter (fun l => decide (610 ≤ l.length))).length) ∧
    (load_types_go [] c4lines).1.length = 2 := by
  refine ⟨?_, ?_, by decide⟩
  · intro buf lines
    induction lines generalizing buf with
    | nil => rfl
    | cons line rest ih =>
      unfold load_types_go
      rw [List.filter_cons]
      by_cases h : line.length < 68
      · rw [if_pos h, decide_eq_false (by omega), ih]
        simp
      · rw [if_neg h, decide_eq_true (by omega)]
        simp [ih]
  · intro buf lines
    induction lines generalizing buf with
    | nil => rfl
    | cons line rest ih =>
      unfold load_planes_go
      rw [List.filter_cons]
      by_cases h : line.length < 610
      · rw [if_pos h, decide_eq_false (by omega), ih]
        simp
      · rw [if_neg h, decide_eq_true (by omega)]
        simp [ih]

/-- C5: construction loads the type index first and the registration index
second (the registration loader starts from the buffer state the type
loader left, and a missing type file aborts before the registration file is
consulted); if either file cannot be opened the whole construction returns
NULL, and a context is returned exactly when both loads succeed, fully
loaded — never partially ready.  (Releasing the partially constructed
records is a heap action outside this value model; see the C9 analysis for
the teardown traversal itself.) -/
theorem c5_init_order_and_failure :
    (∀ (g : CacheGarbage) (tf pf : Option (List (List Char))),
        (planedb_init g tf pf).isSome ↔ tf.isSome ∧ pf.isSome) ∧
    (∀ (g : CacheGarbage) (pf : Option (List (List Char))),
        planedb_init g none pf = none) ∧
    (∀ (g : CacheGarbage) (tl : List (List Char)),
        planedb_init g (some tl) none = none) ∧
    (∀ (g : CacheGarbage) (tl pl : List (List Char)),
        planedb_init g (some tl) (some pl)
          = some { types := (load_types_go [] tl).1
                   last_model := g.gModel
                   last_ti := g.gTi
                   planes := (load_planes_go (load_types_go [] tl).2 pl).1
                   last_icao := g.gIcao
                   last_pi := g.gPi }) := by
  refine ⟨?_, fun g pf => rfl, fun g tl => rfl, fun g tl pl => rfl⟩
  intro g tf pf
  cases tf with
  | none => simp [planedb_init]
  | some tl =>
    cases pf with
    | none => simp [planedb_init]
    | some pl => simp [planedb_init]

theorem type_scan_eq_filter_head (l : List TypeInfo) (id : Int) :
    type_scan l id = (l.filter (fun r => r.id == id)).head? := by
  induction l with
  | nil => rfl
  | cons r rest ih =>
    unfold type_scan
    rw [List.filter_cons]
    by_cases h : r.id = id
    · simp [h]
    · simp [h, ih]

/-- C10: a lookup that is answered by a scan (the key differs from the
cached `last_model`) returns the first record in list order whose id
matches — so with duplicate ids the record that appears first in file order
wins and later colliding records are unreachable through such lookups; and
for any successfully initialized context the type index lists the loaded
records in file order. -/
theorem c10_first_match_wins :
    (∀ (db : PlaneDb) (id : Int), id ≠ db.last_model →
        (type_lookup db id).2 = (db.types.filter (fun r => r.id == id)).head?) ∧
    (∀ (g : CacheGarbage) (tl pl : List (List Char)) (db : PlaneDb),
        planedb_init g (some tl) (some pl) = some db →
        db.types = (load_types_go [] tl).1) := by
  constructor
  · intro db id h
    unfold type_lookup
    rw [if_neg h, ← type_scan_eq_filter_head]
    cases hscan : type_scan db.types id <;> simp [hscan]
  · intro g tl pl db h
    unfold planedb_init at h
    injection h with h
    rw [← h]

theorem readC_bufWrite (buf line : List Char) (i : Nat)
    (h1 : i < line.length) (h2 : i < 1023) :
    readC (bufWrite buf line) i = line.getD i NUL := by
  unfold bufWrite readC
  have hlen : i < (line.take 1023).length := by
    rw [List.length_take]
    omega
  rw [List.append_assoc]
  rw [List.getD_append _ _ _ _ hlen]
  rw [List.getD_eq_getElem?_getD, List.getD_eq_getElem?_getD, List.getElem?_take]
  rw [if_pos h2]

theorem parse_int_two_step (s : List Char) (off : Nat)
    (h : digitVal? (readC s (off + 1)) = none) :
    parse_int s off = (digitVal? (readC s off)).getD 0 := by
  unfold parse_int
  cases h0 : digitVal? (readC s off) with
  | none =>
    show parse_int_go s off (9 + 1) 0 = _
    simp only [parse_int_go, h0]
    rfl
  | some d =>
    have hdb := digitVal?_bounds h0
    have hw : wrap32 (0 * 10 + d) = d := by
      rw [show (0 : Int) * 10 + d = d by ring]
      exact wrap32_eq_self hdb.1 (by omega)
    have e1 : parse_int_go s off (9 + 1) 0 = parse_int_go s (off + 1) 9 d := by
      simp only [parse_int_go, h0, hw]
    have e2 : parse_int_go s (off + 1) (8 + 1) d = d := by
      simp only [parse_int_go, h]
    show parse_int_go s off (9 + 1) 0 = _
    rw [e1]
    show parse_int_go s (off + 1) (8 + 1) d = _
    rw [e2]
    rfl

/-- C7 (amended): a record built by the type loader from a line whose byte
at offset 61 is not a decimal digit — in particular any well-formed line
with a single-digit category field — has its type in [0, 9], and the
`typeTable[type]` access of `typeInfoPrint` stays inside the 10-entry
table.  (In general the loader reads up to 10 digits at offset 60 and does
not bound the value, so the frozen claim fails; see the counterexample.) -/
theorem c7_single_digit_category_in_range :
    ∀ (buf line : List Char), 68 ≤ line.length →
      digitVal? (line.getD 61 NUL) = none →
      0 ≤ (mkTypeInfo (bufWrite buf line)).type ∧
      (mkTypeInfo (bufWrite buf line)).type ≤ 9 ∧
      (typeTable.get? (mkTypeInfo (bufWrite buf line)).type.toNat).isSome := by
  intro buf line hlen hnd
  have h61 : readC (bufWrite buf line) 61 = line.getD 61 NUL :=
    readC_bufWrite buf line 61 (by omega) (by omega)
  have htype : (mkTypeInfo (bufWrite buf line)).type
      = (digitVal? (readC (bufWrite buf line) 60)).getD 0 := by
    show parse_int (bufWrite buf line) 60 = _
    refine parse_int_two_step _ _ ?_
    rw [show (60 : Nat) + 1 = 61 from rfl, h61]
    exact hnd
  have hrange : 0 ≤ (mkTypeInfo (bufWrite buf line)).type ∧
      (mkTypeInfo (bufWrite buf line)).type ≤ 9 := by
    rw [htype]
    cases h0 : digitVal? (readC (bufWrite buf line) 60) with
    | none => simp
    | some d =>
      have hdb := digitVal?_bounds h0
      simpa using hdb
  refine ⟨hrange.1, hrange.2, ?_⟩
  have hlt : (mkTypeInfo (bufWrite buf line)).type.toNat < 10 := by omega
  have hall : ∀ n, n < 10 → (typeTable.get? n).isSome := by decide
  exact hall _ hlt

/-- A 68-byte type line carrying the two-digit category field "99". -/
def c7line : List Char := List.replicate 60 'B' ++ ['9', '9'] ++ List.replicate 6 'B'

/-- C7 counterexample: the type loader accepts `c7line` and produces a
record whose type is 99, outside [0, 9]; `typeTable[99]` is out of bounds,
refuting the frozen claim that every loader-produced record has its
category in [0, 9]. -/
theorem c7_category_out_of_range_counterexample :
    ((load_types_go [] [c7line]).1.map (fun r => r.type)) = [99] ∧
    ¬ ((99 : Int) ≤ 9) ∧
    typeTable.get? 99 = none := by
  exact ⟨by decide, by decide, by decide⟩

/-- A 68-byte type line whose category field is the single digit 4. -/
def c7lineOk : List Char := List.replicate 60 'B' ++ ['4', 'B'] ++ List.replicate 6 'B'

/-- C7 witness: the amended theorem applied to a line with the single-digit
category 4; the record's type is 4 and the table access yields the fixed
wing single engine entry. -/
theorem c7_category_witness :
    (0 ≤ (mkTypeInfo (bufWrite [] c7lineOk)).type ∧
     (mkTypeInfo (bufWrite [] c7lineOk)).type ≤ 9 ∧
     (typeTable.get? (mkTypeInfo (bufWrite [] c7lineOk)).type.toNat).isSome) ∧
    (mkTypeInfo (bufWrite [] c7lineOk)).type = 4 :=
  ⟨c7_single_digit_category_in_range [] c7lineOk (by decide) (by decide), by decide⟩

/-- Two 68-byte type lines with the same id 5 but different manufacturers. -/
def c10line1 : List Char := '5' :: List.replicate 67 'P'

/-- Second record with the colliding id 5. -/
def c10line2 : List Char := '5' :: List.replicate 67 'Q'

/-- A context holding the two colliding records with a zeroed cache. -/
def c10db : PlaneDb :=
  { types := (load_types_go [] [c10line1, c10line2]).1
    last_model := 0
    last_ti := none
    planes := []
    last_icao := 0
    last_pi := none }

/-- C10 witness: on a context with duplicate id 5, a scan-answered lookup
(5 differs from the cached key 0) returns the record of the first file
line, whose manufacturer field is the PPP... string, not the later QQQ...
record. -/
theorem c10_first_match_witness :
    (type_lookup c10db 5).2 = (c10db.types.filter (fun r => r.id == 5)).head? ∧
    (type_lookup c10db 5).2.map (fun r => r.manufacturer)
      = some (List.replicate 30 'P') ∧
    c10db.types.length = 2 ∧
    c10db.types = (load_types_go [] [c10line1, c10line2]).1 :=
  ⟨c10_first_match_wins.1 c10db 5 (by decide), by decide, by decide,
   c10_first_match_wins.2 gZero [c10line1, c10line2] [] c10db (by decide)⟩

/-- A 68-byte type line whose id field does not start with a digit, so the
loaded record's id is 0. -/
def c1line : List Char := List.replicate 68 'X'

/-- C1: evaluation at the failing input.  A freshly initialized context
(with the malloc residue in the cache fields at its most favorable value,
all zero) already answers the very first lookup of key 0 from the never-
written cache: `type_lookup` returns NULL even though a cache-free scan of
the same index finds the id-0 record, contradicting the claim that every
lookup on a context produced by `planedb_init` agrees with a cache-free
linear scan.  (For any other residue value k, the same happens at key k.) -/
theorem c1_uninitialized_cache_eval :
    (planedb_init gZero (some [c1line]) (some [])).map
      (fun db => ((type_lookup db 0).2.isSome, (type_scan db.types 0).isSome))
      = some (false, true) := by decide

/-- A 610-byte registration line whose byte at offset 601 is not a hex
digit, so the loaded record's id is 0. -/
def c2line : List Char := List.replicate 610 'Z'

/-- C2: evaluation at the failing input.  The registration record with id 0
is loaded (the planes index consists exactly of it), yet looking up the hex
string of its id ("0") on the freshly initialized context returns NULL,
because the uninitialized `last_icao`/`last_pi` cache (zero residue)
pretends to answer the lookup; the loaded record is not findable,
contradicting the lookup round-trip claim. -/
theorem c2_roundtrip_eval :
    (planedb_init gZero (some []) (some [c2line])).map
      (fun db => ((planedb_lookup db ['0']).2.isSome, db.planes.map (fun r => r.id)))
      = some (false, [0]) := by decide

/-- An 80-byte type line with the digits 42 at offsets 72-73. -/
def c6line1 : List Char := List.replicate 72 'M' ++ ['4', '2'] ++ List.replicate 6 'M'

/-- A 68-byte type line: it has no offset 72 at all. -/
def c6line2 : List Char := List.replicate 68 'A'

/-- C6: evaluation at the failing input.  The second line is 68 bytes long,
so per the claim its record's seat count should be 0 (no digit at offset 72
of that line); but `parse_int(str, 72)` reads past the line's NUL
terminator into the static buffer residue of the previous 80-byte line and
yields 42. -/
theorem c6_stale_buffer_eval :
    ((load_types_go [] [c6line1, c6line2]).1.map (fun r => r.nrseats)) = [42, 42] ∧
    c6line2.length = 68 := by
  exact ⟨by decide, by decide⟩

/-- Pointer-level node of the type chain: for the teardown traversal only
the `next` field matters.  `typeInfoCreate` (src/planedb.c lines 174-185)
initializes every field of the struct except `next`, so after loading, the
final record's `next` holds the indeterminate malloc residue. -/
structure TypeNode where
  next : Option Nat
deriving DecidableEq, Repr

/-- The pointer structure `load_types` builds from `n` accepted lines:
nodes at addresses 0..n-1, each hooked to its successor by `prev->next =
ti` (src/planedb.c lines 282-286); the last node's `next` is the residue
`gNext` (`none` models a NULL bit pattern, `some a` a non-NULL address). -/
def typeHeap (n : Nat) (gNext : Option Nat) : List TypeNode :=
  (List.range n).map (fun i => ⟨if i + 1 < n then some (i + 1) else gNext⟩)

/-- The teardown loop of `planedb_close` (src/planedb.c lines 472-478)
walking the `next` chain: `true` means it reached NULL touching only nodes
the index owns; `false` means it dereferenced an address outside the heap
or failed to stop within `fuel` steps — an invalid access either way. -/
def closeWalk (heap : List TypeNode) : Nat → Option Nat → Bool
  | _, none => true
  | 0, some _ => false
  | fuel + 1, some a =>
    match heap.get? a with
    | none => false
    | some nd => closeWalk heap fuel nd.next

/-- C9: evaluation at the failing input.  Closing a NULL context is a
no-op that frees nothing (first conjunct, the true half of the claim).
But closing a context whose registration load aborted after one type
record was loaded walks that record's never-initialized `next` pointer: if
the malloc residue is a non-NULL address (here 7) the traversal
dereferences memory the index does not own — an invalid access; only a
luckily zeroed residue (NULL) lets it stop cleanly. -/
theorem c9_teardown_eval :
    planedb_close none = (false, [], []) ∧
    closeWalk (typeHeap 1 (some 7)) 10 (some 0) = false ∧
    closeWalk (typeHeap 1 none) 10 (some 0) = true := by
  exact ⟨rfl, by decide, by decide⟩
